import Mathlib

/-!
# Verification of the review-tally API retrieval and caching subsystem

A shallow embedding, in Lean 4, of the core retrieval/caching code of the
`review-tally` repository:

* `reviewtally/queries/get_prs.py` — PR lister: pagination loop,
  date-window filter, rate-limit backoff, cached/fresh merge;
* `reviewtally/queries/get_reviewers_rest.py` — retry executor `fetch`,
  concurrent `fetch_batch`, rate-limit guard, review/comment aggregator;
* `reviewtally/cache/cache_keys.py` — cache-key derivation;
* `reviewtally/cache/cache_manager.py` — batch TTL policy.

Machine integers do not overflow in the regions exercised here (statuses,
page numbers, epoch seconds), so numbers are modelled by `Nat`/`Int`.
Timestamps are epoch seconds (`Int`).  Network responses are supplied as
explicit inputs (a function from attempt/page index to the served data),
which turns each Python function into a pure, executable Lean function.
-/

namespace ReviewTally

/-! ## Constants (`reviewtally/queries/__init__.py`, `get_prs.py`) -/

/-- `MAX_RETRIES = 10` in `reviewtally/queries/__init__.py`. -/
def MAX_RETRIES : Nat := 10

/-- `RETRYABLE_STATUS_CODES = {429, 500, 502, 503, 504}`. -/
def RETRYABLE_STATUS_CODES : List Nat := [429, 500, 502, 503, 504]

/-- `MAX_NUM_PAGES = 100` in `reviewtally/queries/get_prs.py`. -/
def MAX_NUM_PAGES : Nat := 100

/-- `ITEMS_PER_PAGE = 100` in `reviewtally/queries/get_prs.py`. -/
def ITEMS_PER_PAGE : Nat := 100

/-- `RATE_LIMIT_REMAINING_THRESHOLD = 10` in `get_prs.py`. -/
def RATE_LIMIT_REMAINING_THRESHOLD : Int := 10

/-- `RATE_LIMIT_SLEEP_SECONDS = 60` in `get_prs.py`. -/
def RATE_LIMIT_SLEEP_SECONDS : Int := 60

/-- `RATE_LIMIT_BUFFER = 10` in `get_reviewers_rest.py`. -/
def RATE_LIMIT_BUFFER : Int := 10

/-- `RATE_LIMIT_MIN_SLEEP = 60` in `get_reviewers_rest.py`. -/
def RATE_LIMIT_MIN_SLEEP : Int := 60

/-! ## Pull-request records and the lister (`get_prs.py`) -/

/-- The fields of a pull-request API record that
`get_pull_requests_between_dates` reads: `number`, `created_at`
(epoch seconds) and a `title` standing for the rest of the payload. -/
structure PRRec where
  number : Nat
  created : Int
  title : String
deriving DecidableEq, Repr

/-- Whether a PR's `created_at` lies in the inclusive window
`start_date <= created_at <= end_date`
(line `if start_date <= created_at <= end_date` of `get_prs.py`). -/
def inWindow (s e : Int) (r : PRRec) : Bool :=
  decide (s ≤ r.created ∧ r.created ≤ e)

/-- Outcome of the pagination loop of `get_pull_requests_between_dates`:
a normal return with the pages-fetched count, the `PaginationError(str(page))`
raise, or fuel exhaustion (present only because the embedding is fuel-based;
proved unreachable in `pagesLoop_ne_outOfFuel`). -/
inductive ListerResult where
  | ok (prs : List PRRec) (pagesFetched : Nat)
  | pagError (page : Nat) (pagesFetched : Nat)
  | outOfFuel
deriving DecidableEq, Repr

/-- The `while True` pagination loop of `get_pull_requests_between_dates`
(`get_prs.py` lines 87–111).  `pages p` is the body the endpoint serves for
`?page=p`; `page` is the loop variable (starting at 1), `acc` the
`pull_requests` accumulator.  Mirrors the source statement for statement:
empty page breaks; in-window records are appended; after `page += 1` the loop
breaks when the page's last (oldest) record predates `start_date` and raises
`PaginationError` when `page > MAX_NUM_PAGES`. -/
def pagesLoop (pages : Nat → List PRRec) (s e : Int) :
    Nat → Nat → List PRRec → ListerResult
  | 0, _, _ => .outOfFuel
  | fuel + 1, page, acc =>
    if h : pages page = [] then
      .ok acc page
    else if ((pages page).getLast h).created < s then
      .ok (acc ++ (pages page).filter (inWindow s e)) page
    else if page + 1 > MAX_NUM_PAGES then
      .pagError (page + 1) page
    else
      pagesLoop pages s e fuel (page + 1) (acc ++ (pages page).filter (inWindow s e))

/-- One pass of the duplicate-suppression loops of
`get_pull_requests_between_dates` (`get_prs.py` lines 118–132): walk the
records, keep a record whose `number` is not in `seen` and add its number to
the seen set.  Returns the kept records together with the grown seen set. -/
def dedupPass (seen : List Nat) : List PRRec → List PRRec × List Nat
  | [] => ([], seen)
  | pr :: rest =>
    if pr.number ∈ seen then
      dedupPass seen rest
    else
      let tail := dedupPass (pr.number :: seen) rest
      (pr :: tail.1, tail.2)

/-- The cached/fresh combination of `get_pull_requests_between_dates`:
freshly fetched records are walked first, then cached records, sharing one
`seen_pr_numbers` set, and the kept records are appended in that order. -/
def mergeDedup (fetched cached : List PRRec) : List PRRec :=
  let fresh := dedupPass [] fetched
  fresh.1 ++ (dedupPass fresh.2 cached).1

/-- `get_pull_requests_between_dates` as a function of the served pages and
the cached records: run the pagination loop (fuel `MAX_NUM_PAGES + 1`
suffices, see `pagesLoop_ne_outOfFuel`), then combine with the cached
records, deduplicating by PR number. -/
def getPullRequestsBetweenDates (pages : Nat → List PRRec) (s e : Int)
    (cached : List PRRec) : ListerResult :=
  match pagesLoop pages s e (MAX_NUM_PAGES + 1) 1 [] with
  | .ok prs n => .ok (mergeDedup prs cached) n
  | r => r

/-- The chunking of a newest-first master list `L` into pages of size `per`:
page `p` (1-based) holds elements `(p-1)*per … p*per - 1` of `L`.  This is
how a correctly functioning listing endpoint serves a repository whose PRs,
sorted newest-first, are `L`. -/
def pagesOf (L : List PRRec) (per : Nat) (p : Nat) : List PRRec :=
  (L.drop ((p - 1) * per)).take per

/-- Newest-first order: every later record was created no later than every
earlier one (how the endpoint serves `sort=created_at&direction=desc`). -/
def NewestFirst (L : List PRRec) : Prop :=
  L.Pairwise (fun a b => b.created ≤ a.created)

instance : DecidablePred NewestFirst := fun L =>
  List.instDecidablePairwise L

/-- Scenario of §8 of the spec: PR #1 created `2023-01-01T12:00:00Z`. -/
def scenarioPR1 : PRRec := ⟨1, 1672574400, "Test PR 1"⟩

/-- Scenario of §8 of the spec: PR #2 created `2023-01-02T12:00:00Z`. -/
def scenarioPR2 : PRRec := ⟨2, 1672660800, "Test PR 2"⟩

/-- Scenario of §8 of the spec: PR #3 created `2022-01-02T12:00:00Z`. -/
def scenarioPR3 : PRRec := ⟨3, 1641124800, "Test PR 3"⟩

/-- The scenario repository's PRs as the listing endpoint serves them,
newest first. -/
def scenarioRepo : List PRRec := [scenarioPR2, scenarioPR1, scenarioPR3]

/-- Scenario window start `2023-01-01T00:00:00Z` (epoch seconds). -/
def scenarioStart : Int := 1672531200

/-- Scenario window end `2023-01-03T00:00:00Z` (epoch seconds). -/
def scenarioEnd : Int := 1672704000

/-! ## Retry executor `fetch` (`get_reviewers_rest.py` lines 84–146)

The proxy and non-proxy branches of `fetch` run the identical status logic,
so the embedding models that logic once.  `server attempt` is what the host
answers to the `attempt`-th GET of this logical request. -/

/-- One HTTP GET attempt's result as seen by `fetch`: a response carrying a
status code and a decoded JSON body, or a connection/timeout failure
(`aiohttp.ClientError` / `asyncio.TimeoutError`). -/
inductive Attempt (β : Type) where
  | resp (status : Nat) (body : β)
  | connError
deriving DecidableEq, Repr

/-- Outcome of `fetch`, together with the number of HTTP requests it
performed: the decoded body of a success response; the `raise_for_status`
HTTP error that finally propagates once the retry budget is exhausted (the
`aiohttp.ClientResponseError` it raises is a subclass of
`aiohttp.ClientError`, so the `except` handler at lines 124–129 catches it
and retries like a transient failure until the final attempt); the
re-raised connection error once the retry budget is exhausted; or the
trailing `RuntimeError` after the `for` loop (unreachable, kept for
fidelity). -/
inductive FetchOutcome (β : Type) where
  | success (body : β) (requests : Nat)
  | httpError (status : Nat) (requests : Nat)
  | connFailure (requests : Nat)
  | unexpectedExit
deriving DecidableEq, Repr

/-- The `for attempt in range(MAX_RETRIES + 1)` loop of `fetch`.  A
retryable status backs off and retries while attempts remain, and calls
`raise_for_status()` on the final attempt.  Any other status `>= 400` also
calls `raise_for_status()` — but the `aiohttp.ClientResponseError` this
raises is a subclass of `aiohttp.ClientError`, so the
`except (aiohttp.ClientError, asyncio.TimeoutError)` handler catches it,
backs off and retries while attempts remain, re-raising only on the final
attempt; the same handler drives connection errors.  A success response
runs the rate-limit guard and returns the body.  (Backoff and rate-limit
sleeps are time-only side effects, invisible in the returned value.) -/
def fetchGo {β : Type} (server : Nat → Attempt β) : Nat → Nat → FetchOutcome β
  | 0, _ => .unexpectedExit
  | fuel + 1, attempt =>
    match server attempt with
    | .resp status body =>
      if status ∈ RETRYABLE_STATUS_CODES then
        if attempt < MAX_RETRIES then
          fetchGo server fuel (attempt + 1)
        else
          .httpError status (attempt + 1)
      else if 400 ≤ status then
        if attempt < MAX_RETRIES then
          fetchGo server fuel (attempt + 1)
        else
          .httpError status (attempt + 1)
      else
        .success body (attempt + 1)
    | .connError =>
      if attempt < MAX_RETRIES then
        fetchGo server fuel (attempt + 1)
      else
        .connFailure (attempt + 1)

/-- `fetch(client, url)`: run the attempt loop from attempt `0`; the loop
body executes at most `MAX_RETRIES + 1` times. -/
def fetch {β : Type} (server : Nat → Attempt β) : FetchOutcome β :=
  fetchGo server (MAX_RETRIES + 1) 0

/-! ## Concurrent batch fetcher `fetch_batch` (lines 149–162) -/

/-- One `fetch` task per URL, applied sequentially in input order: the
reference behaviour that `asyncio.gather` must reproduce.  `servers url` is
the response stream the host serves for `url`. -/
def batchResults {β : Type} (urls : List String)
    (servers : String → Nat → Attempt β) : List (FetchOutcome β) :=
  urls.map (fun url => fetch (servers url))

/-- The reassembly `asyncio.gather` performs: the spawned tasks complete in
an arbitrary order (`completions`, each tagged with its task index), and the
gather returns the results re-ordered by task index. -/
def gatherAssemble {β : Type} (numTasks : Nat) (completions : List (Nat × β)) :
    List (Option β) :=
  (List.range numTasks).map
    (fun i => (completions.find? (fun c => c.1 == i)).map (fun c => c.2))

/-! ## Rate-limit guards (`get_prs.py` lines 19–40,
`get_reviewers_rest.py` lines 36–81)

Both guards are modelled as pure functions returning `some t` when they
sleep for `t` seconds and `none` when they return without sleeping; `now`
is `time.time()`.  Neither function can raise: every parse failure is
caught (`except (ValueError, TypeError)`) or branches to a default. -/

/-- ASCII lowercasing, written over the character list so that it is
kernel-reducible (the behaviour of `str.lower()` on header names). -/
def lowerString (s : String) : String :=
  String.mk (s.data.map Char.toLower)

/-- Whitespace stripping from both ends (the leading `str.strip()` step of
Python `int()`), written over the character list. -/
def pyStrip (s : String) : String :=
  String.mk
    (((s.data.dropWhile Char.isWhitespace).reverse.dropWhile
      Char.isWhitespace).reverse)

/-- Python `int()` on a header string: strip surrounding whitespace, an
optional sign, then decimal digits.  (Underscore digit grouping and
non-ASCII digits are not modelled.) -/
def decimalDigits? (l : List Char) : Option Nat :=
  if l ≠ [] ∧ l.all Char.isDigit then
    some (l.foldl (fun a c => 10 * a + (c.toNat - 48)) 0)
  else
    none

/-- Python `int(s)` for a string `s`, as `Option`: `none` models the
`ValueError` the callers catch. -/
def pyInt (s : String) : Option Int :=
  match (pyStrip s).data with
  | '-' :: rest => (decimalDigits? rest).map (fun n => -(n : Int))
  | '+' :: rest => (decimalDigits? rest).map (fun n => (n : Int))
  | l => (decimalDigits? l).map (fun n => (n : Int))

/-- `headers.get(key)` on the case-insensitive header mapping of the
`requests` library. -/
def headersGet (headers : List (String × String)) (key : String) :
    Option String :=
  (headers.find? (fun kv => lowerString kv.1 == lowerString key)).map
    (fun kv => kv.2)

/-- `backoff_if_ratelimited(headers)` (`get_prs.py` lines 19–40): no-op when
the remaining counter is missing, unparsable, or above the threshold;
otherwise sleep `max(0, reset_epoch - now) + 5` when the reset header
parses, and `RATE_LIMIT_SLEEP_SECONDS` when it is missing or unparsable. -/
def backoff_if_ratelimited (headers : List (String × String)) (now : Int) :
    Option Int :=
  match headersGet headers "X-RateLimit-Remaining" with
  | none => none
  | some remaining =>
    match pyInt remaining with
    | none => none
    | some remainingInt =>
      if remainingInt > RATE_LIMIT_REMAINING_THRESHOLD then
        none
      else
        let sleepFor : Int :=
          match headersGet headers "X-RateLimit-Reset" with
          | none => RATE_LIMIT_SLEEP_SECONDS
          | some reset =>
            match pyInt reset with
            | none => RATE_LIMIT_SLEEP_SECONDS
            | some resetEpoch => max 0 (resetEpoch - now) + 5
        if sleepFor > 0 then some sleepFor else none

/-- The header scan of `check_rate_limit_and_sleep` (lines 49–54): walk the
header items, remembering the last value whose lowercased name matches
either spelling of the remaining/reset rate-limit headers. -/
def scanRateHeaders (headers : List (String × String)) :
    Option String × Option String :=
  headers.foldl
    (fun acc kv =>
      if lowerString kv.1 == "x-ratelimit-remaining"
          || lowerString kv.1 == "x-rate-limit-remaining" then
        (some kv.2, acc.2)
      else if lowerString kv.1 == "x-ratelimit-reset"
          || lowerString kv.1 == "x-rate-limit-reset" then
        (acc.1, some kv.2)
      else
        acc)
    (none, none)

/-- `check_rate_limit_and_sleep(response)` (`get_reviewers_rest.py` lines
36–81): no-op unless both headers were found and both parse as integers and
`remaining <= RATE_LIMIT_BUFFER`; then sleep
`max(reset_timestamp - now, RATE_LIMIT_MIN_SLEEP)`. -/
def check_rate_limit_and_sleep (headers : List (String × String))
    (now : Int) : Option Int :=
  match (scanRateHeaders headers).1, (scanRateHeaders headers).2 with
  | some remainingHeader, some resetHeader =>
    match pyInt remainingHeader, pyInt resetHeader with
    | some remaining, some resetTimestamp =>
      if remaining ≤ RATE_LIMIT_BUFFER then
        some (max (resetTimestamp - now) RATE_LIMIT_MIN_SLEEP)
      else
        none
    | _, _ => none
  | _, _ => none

/-! ## Review/comment aggregator
(`get_reviewers_with_comments_for_pull_requests`, lines 179–270)

The cache-miss path is modelled as a pure join of the two fan-out rounds'
responses: `reviews_response` is index-aligned with `pull_numbers` (one
`fetch_batch` result per review URL) and `comments_response` with the
flattened review metadata (one result per comment URL). -/

/-- A review record's fields that the aggregator reads: `id`, `user`
and the optional `submitted_at` (`review.get("submitted_at")`). -/
structure ReviewRec where
  id : Nat
  user : String
  submitted_at : Option String
deriving DecidableEq, Repr

/-- A review-comment record: the aggregator only ever counts comments, but
their `created_at`/`updated_at` are the timestamps the spec's fallback rule
speaks about. -/
structure CommentRec where
  created_at : String
  updated_at : String
deriving DecidableEq, Repr

/-- One entry of `review_metadata` (lines 230–237). -/
structure ReviewMeta where
  user : String
  review_id : Nat
  pull_number : Nat
  submitted_at : Option String
deriving DecidableEq, Repr

/-- One entry of `reviewer_data` (lines 251–259). -/
structure JoinedRec where
  user : String
  review_id : Nat
  pull_number : Nat
  comment_count : Nat
  submitted_at : Option String
deriving DecidableEq, Repr

/-- The first collection loop (lines 210–237): for each pull number's review
sublist, flatten every review into its metadata, pairing it with the pull
number; one comment URL is queued per entry. -/
def reviewMetadata (pull_numbers : List Nat)
    (reviews_response : List (List ReviewRec)) : List ReviewMeta :=
  ((reviews_response.zip pull_numbers).map
    (fun p => p.1.map
      (fun r => ⟨r.user, r.id, p.2, r.submitted_at⟩))).flatten

/-- The join (lines 239–270): with no comment URLs the function returns (and
caches) `[]`; otherwise entry `i` of the comments round is combined with
metadata entry `i`, `comment_count` being the comment list's length and
`submitted_at` copied from the review metadata. -/
def joinReviewsAndComments (pull_numbers : List Nat)
    (reviews_response : List (List ReviewRec))
    (comments_response : List (List CommentRec)) : List JoinedRec :=
  let meta := reviewMetadata pull_numbers reviews_response
  if meta.isEmpty then
    []
  else
    (comments_response.zip meta).map
      (fun p => ⟨p.2.user, p.2.review_id, p.2.pull_number,
        p.1.length, p.2.submitted_at⟩)

/-! ## Batch TTL policy (`cache_manager.py` lines 169–224) -/

/-- `pr_states.get(pr)` on the optional state dictionary. -/
def lookupState (states : List (Nat × String)) (pr : Nat) : Option String :=
  (states.find? (fun kv => kv.1 == pr)).map (fun kv => kv.2)

/-- The `ttl_hours` that `set_pr_reviews_cache` passes to the store
(lines 193–206): `none` (never expire) by default; when a non-empty
`pr_states` mapping is supplied and some pull number of the batch maps to
`"open"`, a short TTL of 1 hour. -/
def computeBatchTtl (pull_numbers : List Nat)
    (pr_states : Option (List (Nat × String))) : Option Nat :=
  match pr_states with
  | none => none
  | some states =>
    if states.isEmpty then
      none
    else if (pull_numbers.filter
        (fun pr => lookupState states pr == some "open")).isEmpty then
      none
    else
      some 1

/-- The TTL of the aggregator's own cache writes: at lines 262–264 and 269
of `get_reviewers_rest.py` it calls
`set_pr_reviews_cache(owner, repo, pull_numbers, reviewer_data)` with the
`pr_states` argument omitted (defaulted to `None`). -/
def aggregatorBatchTtl (pull_numbers : List Nat) : Option Nat :=
  computeBatchTtl pull_numbers none

/-! ## Cache-key derivation (`cache_keys.py` lines 9–39) -/

/-- `",".join(tokens)`. -/
def joinComma : List String → String
  | [] => ""
  | [s] => s
  | s :: rest => s ++ "," ++ joinComma rest

/-- `",".join(map(str, sorted(pull_numbers)))`. -/
def prListString (pull_numbers : List Nat) : String :=
  joinComma ((pull_numbers.insertionSort (· ≤ ·)).map Nat.repr)

/-- `max_key_length = 200`. -/
def MAX_KEY_LENGTH : Nat := 200

/-- Decimal value of a digit-character list (the decoding direction used to
prove `Nat.repr` injective). -/
def digitsVal (l : List Char) : Nat :=
  l.foldl (fun a c => 10 * a + (c.toNat - 48)) 0

/-- A 30-number batch whose base key exceeds the 200-character limit
(each number prints as 7 characters). -/
def longBatch : List Nat := (List.range 30).map (fun i => 1000000 + i)

/-- `base_key = f"pr_reviews:{owner}:{repo}:{pr_list}"`. -/
def basePrReviewsKey (owner repo : String) (pull_numbers : List Nat) :
    String :=
  "pr_reviews:" ++ owner ++ ":" ++ repo ++ ":" ++ prListString pull_numbers

/-- `generate_pr_reviews_cache_key`.  `hash16` stands for
`hashlib.sha256(key.encode()).hexdigest()[:16]`, taken as a parameter: the
digest is treated as an opaque function, so hash collisions appear as
explicit possibilities in the theorems instead of being assumed away. -/
def generate_pr_reviews_cache_key (hash16 : String → String)
    (owner repo : String) (pull_numbers : List Nat) : String :=
  let base_key := basePrReviewsKey owner repo pull_numbers
  if base_key.length > MAX_KEY_LENGTH then
    "pr_reviews:" ++ owner ++ ":" ++ repo ++ ":hash_" ++ hash16 base_key
  else
    base_key

/-- Fuel `MAX_NUM_PAGES + 1` is enough for the pagination loop: starting from
any page number that the loop can actually hold, the fuel-exhaustion branch is
unreachable, because the loop raises `PaginationError` as soon as the
incremented page number exceeds `MAX_NUM_PAGES`. -/
theorem pagesLoop_ne_outOfFuel (pages : Nat → List PRRec) (s e : Int) :
    ∀ (fuel page : Nat) (acc : List PRRec),
      page ≤ MAX_NUM_PAGES + 1 → MAX_NUM_PAGES + 2 - page ≤ fuel →
      pagesLoop pages s e fuel page acc ≠ .outOfFuel := by
  intro fuel
  induction fuel with
  | zero =>
    intro page acc hpage hfuel
    exact absurd hfuel (by omega)
  | succ fuel ih =>
    intro page acc hpage hfuel
    rw [pagesLoop]
    split
    · simp
    · split
      · simp
      · split
        · simp
        · exact ih (page + 1) _ (by omega) (by omega)

/-- If every page the endpoint serves is non-empty and contains only records
created at or after `start_date`, the pagination loop never breaks, so it
raises `PaginationError(101)` right after fetching page `MAX_NUM_PAGES`. -/
theorem pagesLoop_malfunctioning (pages : Nat → List PRRec) (s e : Int)
    (hne : ∀ p, 1 ≤ p → pages p ≠ [])
    (hge : ∀ p r, 1 ≤ p → r ∈ pages p → s ≤ r.created) :
    ∀ (fuel page : Nat) (acc : List PRRec),
      1 ≤ page → page ≤ MAX_NUM_PAGES → MAX_NUM_PAGES + 2 - page ≤ fuel →
      pagesLoop pages s e fuel page acc
        = .pagError (MAX_NUM_PAGES + 1) MAX_NUM_PAGES := by
  intro fuel
  induction fuel with
  | zero =>
    intro page acc h1 h2 h3
    exact absurd h3 (by omega)
  | succ fuel ih =>
    intro page acc h1 h2 h3
    rw [pagesLoop]
    split
    · exact absurd ‹pages page = []› (hne page h1)
    · split
      · rename_i hnonempty hlt
        have hmem := List.getLast_mem hnonempty
        exact absurd (hge page _ h1 hmem) (not_le.mpr hlt)
      · split
        · rename_i hgt
          have hp : page = MAX_NUM_PAGES := by omega
          rw [hp]
        · exact ih (page + 1) _ (by omega) (by omega) (by omega)

/-- **C5.** If every requested page is non-empty and contains only PRs with
`created_at >= start_date` (a malfunctioning, never-exhausting endpoint),
`get_pull_requests_between_dates` raises the distinct `PaginationError` right
after fetching exactly `MAX_NUM_PAGES = 100` pages (the error value `101` is
`str(page)` with `page = 101`, and the pages-fetched count is `100`); and for
every possible response sequence the pagination loop terminates — the
fuel-exhaustion branch of the embedding is unreachable. -/
theorem pagination_ceiling_and_termination
    (pages : Nat → List PRRec) (s e : Int) (cached : List PRRec)
    (hne : ∀ p, 1 ≤ p → pages p ≠ [])
    (hge : ∀ p r, 1 ≤ p → r ∈ pages p → s ≤ r.created) :
    getPullRequestsBetweenDates pages s e cached
      = .pagError (MAX_NUM_PAGES + 1) MAX_NUM_PAGES
    ∧ ∀ (pages' : Nat → List PRRec) (s' e' : Int) (cached' : List PRRec),
        getPullRequestsBetweenDates pages' s' e' cached' ≠ .outOfFuel := by
  constructor
  · unfold getPullRequestsBetweenDates
    rw [pagesLoop_malfunctioning pages s e hne hge (MAX_NUM_PAGES + 1) 1 []
      (by omega) (by decide) (by omega)]
  · intro pages' s' e' cached'
    unfold getPullRequestsBetweenDates
    have h := pagesLoop_ne_outOfFuel pages' s' e' (MAX_NUM_PAGES + 1) 1 []
      (by omega) (by omega)
    cases hres : pagesLoop pages' s' e' (MAX_NUM_PAGES + 1) 1 [] with
    | ok prs n => simp
    | pagError p n => simp
    | outOfFuel => exact absurd hres h

/-- Witness for C5: a server that always answers with the same single
in-range PR drives the lister into `PaginationError` with 100 pages
fetched. -/
theorem pagination_ceiling_and_termination_witness :
    getPullRequestsBetweenDates (fun _ => [⟨1, 5, "pr"⟩]) 0 10 []
      = .pagError (MAX_NUM_PAGES + 1) MAX_NUM_PAGES :=
  (pagination_ceiling_and_termination (fun _ => [⟨1, 5, "pr"⟩]) 0 10 []
    (by intro p _; simp)
    (by
      intro p r _ hr
      simp only [List.mem_singleton] at hr
      rw [hr]
      decide)).1

/-! ### Pagination over a newest-first master list -/

/-- Core pagination invariant.  Running the loop from page `page` over the
pages of a newest-first master list `L` either (a) returns the accumulator
extended with exactly the in-window records of the still-unserved suffix of
`L`, stopping at the first page `n ≥ page` that is empty or whose oldest
(last) record predates `start_date`, with every earlier page non-empty and
fully at-or-after `start_date`; or (b) raises the page-ceiling error after
fetching page `MAX_NUM_PAGES`. -/
theorem pagesLoop_pagesOf (L : List PRRec) (per : Nat) (s e : Int)
    (hper : 1 ≤ per) (hsorted : NewestFirst L) :
    ∀ (fuel page : Nat) (acc : List PRRec),
      1 ≤ page → page ≤ MAX_NUM_PAGES → MAX_NUM_PAGES + 2 - page ≤ fuel →
      (∃ n, pagesLoop (pagesOf L per) s e fuel page acc
            = .ok (acc ++ (L.drop ((page - 1) * per)).filter (inWindow s e)) n
          ∧ page ≤ n
          ∧ (∀ q, page ≤ q → q < n → pagesOf L per q ≠ [] ∧
              ∀ r, (pagesOf L per q).getLast? = some r → s ≤ r.created)
          ∧ (pagesOf L per n = []
              ∨ ∃ r, (pagesOf L per n).getLast? = some r ∧ r.created < s))
      ∨ pagesLoop (pagesOf L per) s e fuel page acc
          = .pagError (MAX_NUM_PAGES + 1) MAX_NUM_PAGES := by
  intro fuel
  induction fuel with
  | zero =>
    intro page acc h1 h2 h3
    exact absurd h3 (by omega)
  | succ fuel ih =>
    intro page acc h1 h2 h3
    have hsortedT : (L.drop ((page - 1) * per)).Pairwise
        (fun a b => b.created ≤ a.created) :=
      hsorted.sublist (List.drop_sublist _ _)
    have hsplitT : pagesOf L per page ++ (L.drop ((page - 1) * per)).drop per
        = L.drop ((page - 1) * per) :=
      List.take_append_drop per _
    have hdroparith : (L.drop ((page - 1) * per)).drop per
        = L.drop (page * per) := by
      rw [List.drop_drop]
      congr 1
      have : page - 1 + 1 = page := by omega
      calc (page - 1) * per + per = (page - 1 + 1) * per := by rw [Nat.succ_mul]
        _ = page * per := by rw [this]
    rw [pagesLoop]
    split
    · -- served page is empty: the whole remaining suffix is empty
      rename_i hempty
      left
      refine ⟨page, ?_, Nat.le_refl page, ?_, Or.inl hempty⟩
      · have hT : L.drop ((page - 1) * per) = [] := by
          rcases List.take_eq_nil_iff.mp hempty with h | h
          · omega
          · exact h
        rw [hT]
        simp
      · intro q hq1 hq2
        exact absurd (Nat.lt_of_le_of_lt hq1 hq2) (Nat.lt_irrefl page)
    · split
      · -- oldest record of the page predates start_date: stop here
        rename_i hne hlt
        left
        refine ⟨page, ?_, Nat.le_refl page, ?_, Or.inr ⟨_, List.getLast?_eq_getLast _ hne, hlt⟩⟩
        · have hrest : ((L.drop ((page - 1) * per)).drop per).filter (inWindow s e)
              = [] := by
            apply List.filter_eq_nil_iff.mpr
            intro r hr
            have hpw := (List.pairwise_append.mp (hsplitT ▸ hsortedT)).2.2
            have hrle : r.created ≤ ((pagesOf L per page).getLast hne).created :=
              hpw _ (List.getLast_mem hne) r hr
            simp only [inWindow, decide_eq_true_eq]
            rintro ⟨hsr, _⟩
            exact absurd (le_trans hsr hrle) (not_le.mpr hlt)
          have : (L.drop ((page - 1) * per)).filter (inWindow s e)
              = (pagesOf L per page).filter (inWindow s e) := by
            conv_lhs => rw [← hsplitT]
            rw [List.filter_append, hrest, List.append_nil]
          rw [this]
        · intro q hq1 hq2
          exact absurd (Nat.lt_of_le_of_lt hq1 hq2) (Nat.lt_irrefl page)
      · split
        · -- page ceiling hit
          rename_i hgt
          right
          have hp : page = MAX_NUM_PAGES := by omega
          rw [hp]
        · -- continue with the next page
          rename_i hne hnlt hngt
          rcases ih (page + 1) (acc ++ (pagesOf L per page).filter (inWindow s e))
              (by omega) (by omega) (by omega) with
            ⟨n, heq, hlen, hnonstop, hstop⟩ | herr
          · left
            refine ⟨n, ?_, by omega, ?_, hstop⟩
            · rw [heq]
              have harith : page + 1 - 1 = page := by omega
              rw [harith, List.append_assoc, ← hdroparith, ← List.filter_append,
                hsplitT]
            · intro q hq1 hq2
              rcases Nat.eq_or_lt_of_le hq1 with hq | hq
              · subst hq
                refine ⟨hne, ?_⟩
                intro r hr
                rw [List.getLast?_eq_getLast _ hne, Option.some_inj] at hr
                rw [← hr]
                exact not_lt.mp hnlt
              · exact hnonstop q hq hq2
          · right
            exact herr

/-! ### Duplicate-suppression lemmas (`get_prs.py` lines 118–132) -/

/-- When the walked records have pairwise-distinct PR numbers, one
dedup pass keeps exactly the records whose number is not in the initial
seen set, in order. -/
theorem dedupPass_fst (A : List PRRec) : ∀ (seen : List Nat),
    (A.map PRRec.number).Nodup →
    (dedupPass seen A).1 = A.filter (fun a => decide (a.number ∉ seen)) := by
  induction A with
  | nil => intro seen _; rfl
  | cons pr rest ih =>
    intro seen hnd
    rw [List.map_cons, List.nodup_cons] at hnd
    obtain ⟨hpr, hrest⟩ := hnd
    rw [dedupPass]
    split
    · rename_i hmem
      rw [ih seen hrest, List.filter_cons]
      simp [hmem]
    · rename_i hmem
      have hcongr : rest.filter (fun a => decide (a.number ∉ pr.number :: seen))
          = rest.filter (fun a => decide (a.number ∉ seen)) := by
        apply List.filter_congr
        intro b hb
        have hbne : b.number ≠ pr.number := fun hcontra =>
          hpr (hcontra ▸ List.mem_map_of_mem PRRec.number hb)
        rw [decide_eq_decide]
        simp [List.mem_cons, hbne]
      simp only []
      rw [ih (pr.number :: seen) hrest, hcongr, List.filter_cons]
      simp [hmem]

/-- The seen set a dedup pass returns holds exactly the initial seen
numbers plus the walked records' numbers. -/
theorem dedupPass_snd_mem (A : List PRRec) : ∀ (seen : List Nat) (x : Nat),
    x ∈ (dedupPass seen A).2 ↔ x ∈ seen ∨ x ∈ A.map PRRec.number := by
  induction A with
  | nil => intro seen x; simp [dedupPass]
  | cons pr rest ih =>
    intro seen x
    rw [dedupPass]
    split
    · rename_i hmem
      rw [ih]
      simp only [List.map_cons, List.mem_cons]
      constructor
      · rintro (h | h)
        · exact Or.inl h
        · exact Or.inr (Or.inr h)
      · rintro (h | h | h)
        · exact Or.inl h
        · exact Or.inl (h ▸ hmem)
        · exact Or.inr h
    · simp only []
      rw [ih]
      simp only [List.map_cons, List.mem_cons]
      tauto

/-- The combination step, in closed form: with pairwise-distinct numbers on
each side, the fresh records survive unchanged and a cached record survives
exactly when its number is fresh-free. -/
theorem mergeDedup_eq_of_nodup (A B : List PRRec)
    (hA : (A.map PRRec.number).Nodup) (hB : (B.map PRRec.number).Nodup) :
    mergeDedup A B
      = A ++ B.filter (fun b => decide (b.number ∉ A.map PRRec.number)) := by
  have h1 : (dedupPass [] A).1 = A := by
    rw [dedupPass_fst A [] hA]
    apply List.filter_eq_self.mpr
    intro a _
    simp
  have h2 : (dedupPass (dedupPass [] A).2 B).1
      = B.filter (fun b => decide (b.number ∉ A.map PRRec.number)) := by
    rw [dedupPass_fst B _ hB]
    apply List.filter_congr
    intro b _
    rw [decide_eq_decide]
    rw [not_iff_not]
    rw [dedupPass_snd_mem A [] b.number]
    simp
  unfold mergeDedup
  simp only []
  rw [h1, h2]

/-- **C6 (amended).** When the freshly fetched records `A` and the cached
records `B` each carry pairwise-distinct PR numbers, the combined list is
exactly `A` (in order) followed by those records of `B` whose number does not
occur in `A`, and the combined list has no two records with the same number.
(The claim's unqualified form fails when a side repeats a number, see the
counterexample.) -/
theorem merge_dedup_amended (A B : List PRRec)
    (hA : (A.map PRRec.number).Nodup) (hB : (B.map PRRec.number).Nodup) :
    mergeDedup A B
      = A ++ B.filter (fun b => decide (b.number ∉ A.map PRRec.number))
    ∧ ((mergeDedup A B).map PRRec.number).Nodup := by
  have heq := mergeDedup_eq_of_nodup A B hA hB
  refine ⟨heq, ?_⟩
  rw [heq, List.map_append, List.nodup_append]
  refine ⟨hA, ?_, ?_⟩
  · exact hB.sublist ((List.filter_sublist B).map PRRec.number)
  · intro x hx1 hx2
    obtain ⟨b, hb, hbx⟩ := List.mem_map.mp hx2
    obtain ⟨_, hbp⟩ := List.mem_filter.mp hb
    rw [decide_eq_true_eq] at hbp
    exact hbp (hbx ▸ hx1)

/-- Witness for C6 (amended): a concrete merge where the cached side shares
PR number 2 with the fresh side. -/
theorem merge_dedup_amended_witness :
    (([⟨1, 0, "a"⟩, ⟨2, 0, "b"⟩] : List PRRec).map PRRec.number).Nodup
    ∧ (([⟨2, 5, "c"⟩, ⟨3, 5, "d"⟩] : List PRRec).map PRRec.number).Nodup
    ∧ (mergeDedup [⟨1, 0, "a"⟩, ⟨2, 0, "b"⟩] [⟨2, 5, "c"⟩, ⟨3, 5, "d"⟩]
        = [⟨1, 0, "a"⟩, ⟨2, 0, "b"⟩]
            ++ ([⟨2, 5, "c"⟩, ⟨3, 5, "d"⟩] : List PRRec).filter
                (fun b => decide (b.number ∉
                  ([⟨1, 0, "a"⟩, ⟨2, 0, "b"⟩] : List PRRec).map PRRec.number))
        ∧ ((mergeDedup [⟨1, 0, "a"⟩, ⟨2, 0, "b"⟩]
            [⟨2, 5, "c"⟩, ⟨3, 5, "d"⟩]).map PRRec.number).Nodup) :=
  ⟨by decide, by decide, merge_dedup_amended _ _ (by decide) (by decide)⟩

/-- **C6 (counterexample).** With `A = []` and cached records
`B = [{number 7, "x"}, {number 7, "y"}]`, the second record of `B` has a
number that does not occur in `A`, yet it is absent from the combined list —
refuting the claim's "a record of B is included if and only if its number
does not occur in A" for lists that repeat a number. -/
theorem merge_dedup_counterexample :
    (⟨7, 0, "y"⟩ : PRRec) ∈ ([⟨7, 0, "x"⟩, ⟨7, 0, "y"⟩] : List PRRec)
    ∧ (⟨7, 0, "y"⟩ : PRRec).number ∉ (([] : List PRRec).map PRRec.number)
    ∧ (⟨7, 0, "y"⟩ : PRRec) ∉ mergeDedup [] [⟨7, 0, "x"⟩, ⟨7, 0, "y"⟩] := by
  decide

/-- **C4.** For every page sequence served newest-first (the pages of a
master list `L` sorted newest-first, any page size ≥ 1, PR numbers pairwise
distinct), `get_pull_requests_between_dates` either returns exactly the
records of `L` whose `created_at` lies in the inclusive window
`[start_date, end_date]` — including both boundaries, excluding everything
outside — having requested pages `1..n` where page `n` is the first page that
is empty or whose oldest record predates `start_date` and every earlier page
is non-empty with all records at-or-after `start_date`; or it raises the
page-ceiling `PaginationError` (the ceiling path, claim C5). -/
theorem lister_window_and_stop (L : List PRRec) (per : Nat) (s e : Int)
    (hper : 1 ≤ per) (hsorted : NewestFirst L)
    (hnodup : (L.map PRRec.number).Nodup) :
    (∃ n, getPullRequestsBetweenDates (pagesOf L per) s e []
          = .ok (L.filter (inWindow s e)) n
        ∧ 1 ≤ n
        ∧ (∀ q, 1 ≤ q → q < n → pagesOf L per q ≠ [] ∧
            ∀ r, (pagesOf L per q).getLast? = some r → s ≤ r.created)
        ∧ (pagesOf L per n = []
            ∨ ∃ r, (pagesOf L per n).getLast? = some r ∧ r.created < s))
    ∨ getPullRequestsBetweenDates (pagesOf L per) s e []
        = .pagError (MAX_NUM_PAGES + 1) MAX_NUM_PAGES := by
  have hmain := pagesLoop_pagesOf L per s e hper hsorted (MAX_NUM_PAGES + 1) 1 []
    (Nat.le_refl 1) (by decide) (by omega)
  unfold getPullRequestsBetweenDates
  rcases hmain with ⟨n, heq, hlen, hnonstop, hstop⟩ | herr
  · left
    refine ⟨n, ?_, hlen, hnonstop, hstop⟩
    rw [heq]
    have hX : ([] : List PRRec) ++ (L.drop ((1 - 1) * per)).filter (inWindow s e)
        = L.filter (inWindow s e) := by
      simp
    rw [hX]
    have hFnodup : ((L.filter (inWindow s e)).map PRRec.number).Nodup :=
      hnodup.sublist ((List.filter_sublist L).map PRRec.number)
    have hmerge := mergeDedup_eq_of_nodup (L.filter (inWindow s e)) [] hFnodup
      (by simp)
    simp only [List.filter_nil, List.append_nil] at hmerge
    change ListerResult.ok (mergeDedup (L.filter (inWindow s e)) []) n = _
    rw [hmerge]
  · right
    rw [herr]

/-- Witness for C4: three PRs served newest-first one per page; the window
`[4, 10]` keeps the two newest, pagination stops on page 3, whose only
record predates the window start. -/
theorem lister_window_and_stop_witness :
    (1 : Nat) ≤ 1
    ∧ NewestFirst [⟨3, 10, "c"⟩, ⟨2, 5, "b"⟩, ⟨1, 0, "a"⟩]
    ∧ (([⟨3, 10, "c"⟩, ⟨2, 5, "b"⟩, ⟨1, 0, "a"⟩] : List PRRec).map
        PRRec.number).Nodup
    ∧ ((∃ n, getPullRequestsBetweenDates
            (pagesOf [⟨3, 10, "c"⟩, ⟨2, 5, "b"⟩, ⟨1, 0, "a"⟩] 1) 4 10 []
          = .ok (([⟨3, 10, "c"⟩, ⟨2, 5, "b"⟩, ⟨1, 0, "a"⟩] : List PRRec).filter
              (inWindow 4 10)) n
        ∧ 1 ≤ n
        ∧ (∀ q, 1 ≤ q → q < n →
            pagesOf [⟨3, 10, "c"⟩, ⟨2, 5, "b"⟩, ⟨1, 0, "a"⟩] 1 q ≠ [] ∧
            ∀ r, (pagesOf [⟨3, 10, "c"⟩, ⟨2, 5, "b"⟩, ⟨1, 0, "a"⟩] 1 q).getLast?
              = some r → 4 ≤ r.created)
        ∧ (pagesOf [⟨3, 10, "c"⟩, ⟨2, 5, "b"⟩, ⟨1, 0, "a"⟩] 1 n = []
            ∨ ∃ r, (pagesOf [⟨3, 10, "c"⟩, ⟨2, 5, "b"⟩, ⟨1, 0, "a"⟩] 1 n).getLast?
                = some r ∧ r.created < 4))
      ∨ getPullRequestsBetweenDates
          (pagesOf [⟨3, 10, "c"⟩, ⟨2, 5, "b"⟩, ⟨1, 0, "a"⟩] 1) 4 10 []
          = .pagError (MAX_NUM_PAGES + 1) MAX_NUM_PAGES) :=
  ⟨Nat.le_refl 1, by decide, by decide,
    lister_window_and_stop [⟨3, 10, "c"⟩, ⟨2, 5, "b"⟩, ⟨1, 0, "a"⟩] 1 4 10
      (Nat.le_refl 1) (by decide) (by decide)⟩

/-- **C8 (counterexample).** In the literal §8 scenario (three PRs created
`2023-01-01T12Z` #1, `2023-01-02T12Z` #2, `2022-01-02T12Z` #3; window
`2023-01-01T00Z ... 2023-01-03T00Z`), the lister — whose request asks the
endpoint for newest-first order — returns `[#2, #1]`, which is not the
claimed order `[#1, #2]`. -/
theorem scenario_listing_counterexample :
    getPullRequestsBetweenDates (pagesOf scenarioRepo ITEMS_PER_PAGE)
        scenarioStart scenarioEnd []
      = .ok [scenarioPR2, scenarioPR1] 1
    ∧ ([scenarioPR2, scenarioPR1] : List PRRec) ≠ [scenarioPR1, scenarioPR2] := by
  decide

/-- **C8 (amended).** In the literal §8 scenario the lister returns exactly
the records of #1 and #2 and nothing else, in newest-first order (#2 before
#1), after fetching a single page. -/
theorem scenario_listing_amended :
    getPullRequestsBetweenDates (pagesOf scenarioRepo ITEMS_PER_PAGE)
        scenarioStart scenarioEnd []
      = .ok [scenarioPR2, scenarioPR1] 1 := by
  decide

/-! ### Retry executor: non-retryable statuses (C1) -/

/-- **C1 (counterexample).** A server that always answers 404: `fetch` does
not raise after the first request — the `ClientResponseError` from
`raise_for_status()` is caught by the `ClientError` handler and retried, so
all `MAX_RETRIES + 1 = 11` requests are performed (the whole retry budget
is consumed) before the 404 propagates, refuting "raises the error to the
caller immediately, with no further request attempts and no retry
consumed". -/
theorem fetch_non_retryable_counterexample :
    fetch (fun _ => Attempt.resp 404 (0 : Nat))
      = .httpError 404 (MAX_RETRIES + 1)
    ∧ MAX_RETRIES + 1 ≠ 1 := by
  decide

/-- Attempt-loop invariant behind the amended C1: from attempt `attempt`
with the matching remaining fuel, a server that keeps answering a
non-retryable 4xx drives the loop through every remaining attempt and ends
in the HTTP error after `MAX_RETRIES + 1` requests. -/
theorem fetchGo_non_retryable {β : Type} (server : Nat → Attempt β)
    (status : Nat)
    (hserver : ∀ attempt, ∃ b, server attempt = .resp status b)
    (h4xx : 400 ≤ status) (hlt : status < 500) (hne : status ≠ 429) :
    ∀ (fuel attempt : Nat), attempt ≤ MAX_RETRIES →
      attempt + fuel = MAX_RETRIES + 1 →
      fetchGo server fuel attempt = .httpError status (MAX_RETRIES + 1) := by
  have hnotretry : status ∉ RETRYABLE_STATUS_CODES := by
    intro hmem
    simp only [RETRYABLE_STATUS_CODES, List.mem_cons,
      List.not_mem_nil, or_false] at hmem
    omega
  intro fuel
  induction fuel with
  | zero =>
    intro attempt hle hsum
    exact absurd hsum (by simp only [MAX_RETRIES] at hle ⊢; omega)
  | succ fuel ih =>
    intro attempt hle hsum
    obtain ⟨b, hb⟩ := hserver attempt
    rw [fetchGo, hb]
    by_cases hatt : attempt < MAX_RETRIES
    · simp only [if_neg hnotretry, if_pos h4xx, if_pos hatt]
      exact ih (attempt + 1) (by omega) (by omega)
    · have heq : attempt = MAX_RETRIES := by omega
      simp only [if_neg hnotretry, if_pos h4xx, heq]
      rw [if_neg (lt_irrefl MAX_RETRIES)]

/-- **C1 (amended).** A response stream of a fixed non-retryable HTTP error
status (any 4xx other than 429) does not raise immediately: the
`ClientResponseError` from `raise_for_status()` is a subclass of the
`ClientError` the `except` handler catches, so the request is retried with
backoff like a transient failure, and the HTTP error propagates to the
caller only after the final attempt — `MAX_RETRIES + 1 = 11` requests, the
entire retry budget consumed. -/
theorem fetch_non_retryable_retries {β : Type} (server : Nat → Attempt β)
    (status : Nat)
    (hserver : ∀ attempt, ∃ b, server attempt = .resp status b)
    (h4xx : 400 ≤ status) (hlt : status < 500) (hne : status ≠ 429) :
    fetch server = .httpError status (MAX_RETRIES + 1) :=
  fetchGo_non_retryable server status hserver h4xx hlt hne
    (MAX_RETRIES + 1) 0 (by omega) (by omega)

/-- Witness for C1 (amended): the always-404 server ends in the 404 error
after 11 requests. -/
theorem fetch_non_retryable_retries_witness :
    fetch (fun _ => Attempt.resp 404 (0 : Nat))
      = .httpError 404 (MAX_RETRIES + 1) :=
  fetch_non_retryable_retries (fun _ => Attempt.resp 404 (0 : Nat)) 404
    (fun _ => ⟨0, rfl⟩) (by decide) (by decide) (by decide)

/-! ### Ordered gather (C10) -/

/-- `find?` on an association list with pairwise-distinct keys returns the
unique entry with the sought key. -/
theorem find?_of_nodup_keys {γ : Type} :
    ∀ (l : List (Nat × γ)) (i : Nat) (b : γ),
      (l.map Prod.fst).Nodup → (i, b) ∈ l →
      l.find? (fun c => c.1 == i) = some (i, b) := by
  intro l
  induction l with
  | nil =>
    intro i b _ hmem
    cases hmem
  | cons hd tl ih =>
    intro i b hnd hmem
    rw [List.map_cons, List.nodup_cons] at hnd
    obtain ⟨hhd, htl⟩ := hnd
    by_cases hcase : hd.1 = i
    · rcases List.mem_cons.mp hmem with heq | hmem'
      · rw [List.find?_cons_of_pos tl (by simp [hcase]), ← heq]
      · exact absurd (hcase ▸ List.mem_map_of_mem Prod.fst hmem') hhd
    · have hmem' : (i, b) ∈ tl := by
        rcases List.mem_cons.mp hmem with heq | h
        · exact absurd (congrArg Prod.fst heq.symm) hcase
        · exact h
      rw [List.find?_cons_of_neg tl (by simp [hcase])]
      exact ih i b htl hmem'

/-- Reassembling any completion order of a result list by task index gives
back the result list. -/
theorem gatherAssemble_perm {γ : Type} (R : List γ)
    (completions : List (Nat × γ)) (hperm : completions.Perm R.enum) :
    gatherAssemble R.length completions = R.map some := by
  have hkeys : (completions.map Prod.fst).Nodup := by
    have hp := hperm.map Prod.fst
    rw [List.enum_map_fst] at hp
    exact hp.nodup_iff.mpr (List.nodup_range R.length)
  apply List.ext_getElem (by simp [gatherAssemble])
  intro i h1 h2
  have hiR : i < R.length := by simpa [gatherAssemble] using h1
  have hmem : (i, R[i]) ∈ completions := by
    apply hperm.mem_iff.mpr
    have hienum : i < R.enum.length := by simpa using hiR
    have := List.getElem_enum R i hienum
    rw [← this]
    exact List.getElem_mem hienum
  simp only [gatherAssemble, List.getElem_map, List.getElem_range]
  rw [find?_of_nodup_keys completions i R[i] hkeys hmem]
  rfl

/-- **C10.** For every ordered URL list whose individual fetches all
succeed, the batch fetch returns one decoded body per input URL, ordered by
input position no matter in which order the concurrent tasks complete: the
gather of any completion permutation equals sequentially applying `fetch`
to each URL in input order. -/
theorem fetch_batch_ordered {β : Type} (urls : List String)
    (servers : String → Nat → Attempt β)
    (completions : List (Nat × FetchOutcome β))
    (_hsucc : ∀ u ∈ urls, ∃ b k, fetch (servers u) = .success b k)
    (hperm : completions.Perm (batchResults urls servers).enum) :
    gatherAssemble urls.length completions
      = (urls.map (fun u => fetch (servers u))).map some := by
  have h := gatherAssemble_perm (batchResults urls servers) completions hperm
  rw [batchResults] at h
  rw [← h]
  unfold gatherAssemble
  rw [List.length_map]

/-- Witness for C10: two URLs completing in reverse order still gather in
input order. -/
theorem fetch_batch_ordered_witness :
    (∀ u ∈ ["a", "b"], ∃ b k,
      fetch ((fun u => fun _ => Attempt.resp 200 (if u = "a" then 1 else 2)) u)
        = FetchOutcome.success b k)
    ∧ ([(1, FetchOutcome.success (2 : Nat) 1), (0, FetchOutcome.success 1 1)].Perm
        (batchResults ["a", "b"]
          (fun u => fun _ => Attempt.resp 200 (if u = "a" then 1 else 2))).enum)
    ∧ gatherAssemble (["a", "b"] : List String).length
        [(1, FetchOutcome.success (2 : Nat) 1), (0, FetchOutcome.success 1 1)]
      = ((["a", "b"] : List String).map
          (fun u => fetch
            ((fun u => fun _ => Attempt.resp 200 (if u = "a" then 1 else 2)) u))).map
          some :=
  ⟨by
    intro u hu
    simp only [List.mem_cons, List.not_mem_nil, or_false] at hu
    rcases hu with h | h
    · exact ⟨1, 1, by rw [h]; decide⟩
    · exact ⟨2, 1, by rw [h]; decide⟩,
   by decide,
   fetch_batch_ordered ["a", "b"]
    (fun u => fun _ => Attempt.resp 200 (if u = "a" then 1 else 2))
    [(1, FetchOutcome.success 2 1), (0, FetchOutcome.success 1 1)]
    (by
      intro u hu
      simp only [List.mem_cons, List.not_mem_nil, or_false] at hu
      rcases hu with h | h
      · exact ⟨1, 1, by rw [h]; decide⟩
      · exact ⟨2, 1, by rw [h]; decide⟩)
    (by decide)⟩

/-! ### Rate-limit guards (C9) -/

/-- **C9 (counterexample).** A header map carrying a low remaining counter
but no reset header: the claim says either header missing means no-op, yet
`backoff_if_ratelimited` sleeps for the 60-second default. -/
theorem rate_limit_guard_counterexample :
    headersGet [("X-RateLimit-Remaining", "5")] "X-RateLimit-Reset" = none
    ∧ backoff_if_ratelimited [("X-RateLimit-Remaining", "5")] 0
      = some RATE_LIMIT_SLEEP_SECONDS := by
  exact ⟨rfl, rfl⟩

/-- **C9 (amended).** Both guards are total (modelled as pure functions, so
they cannot raise), and their sleeping behaviour is exactly:
`check_rate_limit_and_sleep` is a no-op when either scanned header is
missing or unparsable, and when both parse it sleeps
`max(reset - now, 60)` — with no extra buffer — exactly when
`remaining <= 10`; `backoff_if_ratelimited` is a no-op when the
remaining counter is missing, unparsable, or above 10, and otherwise sleeps
`max(0, reset - now) + 5` when the reset header parses and 60 seconds when
the reset header is missing or unparsable (so a missing reset header does
not make it a no-op). -/
theorem rate_limit_guard_amended (headers : List (String × String))
    (now : Int) :
    ((scanRateHeaders headers).1 = none ∨ (scanRateHeaders headers).2 = none →
      check_rate_limit_and_sleep headers now = none)
    ∧ (∀ r t rv tv, (scanRateHeaders headers).1 = some r →
        (scanRateHeaders headers).2 = some t →
        pyInt r = some rv → pyInt t = some tv →
        check_rate_limit_and_sleep headers now
          = if rv ≤ RATE_LIMIT_BUFFER then
              some (max (tv - now) RATE_LIMIT_MIN_SLEEP)
            else none)
    ∧ (∀ r t, (scanRateHeaders headers).1 = some r →
        (scanRateHeaders headers).2 = some t →
        pyInt r = none ∨ pyInt t = none →
        check_rate_limit_and_sleep headers now = none)
    ∧ (headersGet headers "X-RateLimit-Remaining" = none →
        backoff_if_ratelimited headers now = none)
    ∧ (∀ r, headersGet headers "X-RateLimit-Remaining" = some r →
        pyInt r = none →
        backoff_if_ratelimited headers now = none)
    ∧ (∀ r rv, headersGet headers "X-RateLimit-Remaining" = some r →
        pyInt r = some rv → RATE_LIMIT_REMAINING_THRESHOLD < rv →
        backoff_if_ratelimited headers now = none)
    ∧ (∀ r rv, headersGet headers "X-RateLimit-Remaining" = some r →
        pyInt r = some rv → rv ≤ RATE_LIMIT_REMAINING_THRESHOLD →
        ((headersGet headers "X-RateLimit-Reset" = none →
            backoff_if_ratelimited headers now
              = some RATE_LIMIT_SLEEP_SECONDS)
          ∧ (∀ t, headersGet headers "X-RateLimit-Reset" = some t →
              pyInt t = none →
              backoff_if_ratelimited headers now
                = some RATE_LIMIT_SLEEP_SECONDS)
          ∧ (∀ t tv, headersGet headers "X-RateLimit-Reset" = some t →
              pyInt t = some tv →
              backoff_if_ratelimited headers now
                = some (max 0 (tv - now) + 5)))) := by
  refine ⟨?_, ?_, ?_, ?_, ?_, ?_, ?_⟩
  · intro h
    unfold check_rate_limit_and_sleep
    rcases h with h | h
    · rw [h]
    · cases hx : (scanRateHeaders headers).1 with
      | none => rfl
      | some r => rw [h]
  · intro r t rv tv h1 h2 h3 h4
    unfold check_rate_limit_and_sleep
    rw [h1, h2]
    simp only [h3, h4]
  · intro r t h1 h2 h3
    unfold check_rate_limit_and_sleep
    rw [h1, h2]
    rcases h3 with h | h
    · simp only [h]
    · cases hx : pyInt r with
      | none => simp only [hx]
      | some rv => simp only [hx, h]
  · intro h
    unfold backoff_if_ratelimited
    rw [h]
  · intro r h1 h2
    unfold backoff_if_ratelimited
    rw [h1]
    simp only [h2]
  · intro r rv h1 h2 hgt
    unfold backoff_if_ratelimited
    rw [h1]
    simp only [h2]
    rw [if_pos hgt]
  · intro r rv h1 h2 hle
    have hnotgt : ¬ RATE_LIMIT_REMAINING_THRESHOLD < rv := not_lt.mpr hle
    refine ⟨?_, ?_, ?_⟩
    · intro hnone
      unfold backoff_if_ratelimited
      rw [h1]
      simp only [h2, if_neg hnotgt, hnone]
      rw [if_pos (by norm_num [RATE_LIMIT_SLEEP_SECONDS])]
    · intro t ht htn
      unfold backoff_if_ratelimited
      rw [h1]
      simp only [h2, if_neg hnotgt, ht, htn]
      rw [if_pos (by norm_num [RATE_LIMIT_SLEEP_SECONDS])]
    · intro t tv ht htv
      unfold backoff_if_ratelimited
      rw [h1]
      simp only [h2, if_neg hnotgt, ht, htv]
      have hpos : (0 : Int) < max 0 (tv - now) + 5 := by
        have := le_max_left (0 : Int) (tv - now)
        linarith
      rw [if_pos hpos]

/-- Witness for C9 (amended): remaining 5 and reset epoch 100 at `now = 0`
make the aiohttp guard sleep `max(100, 60) = 100` seconds and the requests
guard sleep `max(0, 100) + 5 = 105` seconds. -/
theorem rate_limit_guard_amended_witness :
    check_rate_limit_and_sleep
        [("X-RateLimit-Remaining", "5"), ("X-RateLimit-Reset", "100")] 0
      = some 100
    ∧ backoff_if_ratelimited
        [("X-RateLimit-Remaining", "5"), ("X-RateLimit-Reset", "100")] 0
      = some 105 := by
  constructor
  · have h := (rate_limit_guard_amended
      [("X-RateLimit-Remaining", "5"), ("X-RateLimit-Reset", "100")] 0).2.1
      "5" "100" 5 100 (by decide) (by decide) (by decide) (by decide)
    rw [h]
    decide
  · have h := ((rate_limit_guard_amended
      [("X-RateLimit-Remaining", "5"), ("X-RateLimit-Reset", "100")] 0).2.2.2.2.2.2
      "5" 5 (by decide) (by decide) (by decide)).2.2
      "100" 100 (by decide) (by decide)
    rw [h]
    decide

/-! ### Review/comment aggregator: missing `submitted_at` (C2) -/

/-- **C2 (evaluation at the failing input).** A review without
`submitted_at` that has one comment (timestamped `2011-04-14T16:00:49Z`):
the aggregator emits the joined record with `comment_count = 1` but
`submitted_at = None` — it never falls back to the comment's
`created_at`/`updated_at`, although the repository's own test
(`test_get_reviewers_with_comments.py`, "missing submitted_at" case)
expects `submitted_at == "2011-04-14T16:00:49Z"` here. -/
theorem aggregator_missing_submitted_at_eval :
    joinReviewsAndComments [42] [[⟨80, "octocat", none⟩]]
        [[⟨"2011-04-14T16:00:49Z", "2011-04-14T16:00:49Z"⟩]]
      = [⟨"octocat", 80, 42, 1, none⟩]
    ∧ ([⟨"2011-04-14T16:00:49Z", "2011-04-14T16:00:49Z"⟩] : List CommentRec)
        ≠ []
    ∧ (none : Option String) ≠ some "2011-04-14T16:00:49Z" := by
  refine ⟨rfl, by decide, by decide⟩

/-! ### Batch TTL policy (C3) -/

/-- **C3 (counterexample).** The aggregator's cache write omits `pr_states`,
so a batch containing the open PR #5 is stored with `ttl_hours = None`
(never expires) — not the short TTL the claim requires — although
`set_pr_reviews_cache` would produce the short TTL had the states been
passed. -/
theorem batch_ttl_counterexample :
    aggregatorBatchTtl [5] = none
    ∧ (¬ ∃ h : Nat, aggregatorBatchTtl [5] = some h ∧ h ≤ 6)
    ∧ computeBatchTtl [5] (some [(5, "open")]) = some 1 := by
  refine ⟨rfl, ?_, rfl⟩
  rintro ⟨h, hh, _⟩
  rw [show aggregatorBatchTtl [5] = none from rfl] at hh
  cases hh

/-- **C3 (amended).** `set_pr_reviews_cache` itself implements the TTL rule
only when it is handed a non-empty PR-state mapping: then the stored TTL is
the short 1 hour exactly when some PR of the batch maps to `"open"`, and
`None` (never expire) otherwise — in particular when every PR is closed.
The TTL is always either 1 hour or `None`.  The aggregator's own writes pass
no states, so they always store `ttl_hours = None`. -/
theorem batch_ttl_amended (pull_numbers : List Nat)
    (states : List (Nat × String)) :
    (computeBatchTtl pull_numbers (some states) = some 1 ↔
      states ≠ [] ∧ ∃ pr ∈ pull_numbers, lookupState states pr = some "open")
    ∧ (computeBatchTtl pull_numbers (some states) = some 1
        ∨ computeBatchTtl pull_numbers (some states) = none)
    ∧ ((∀ pr ∈ pull_numbers, lookupState states pr = some "closed") →
        computeBatchTtl pull_numbers (some states) = none)
    ∧ aggregatorBatchTtl pull_numbers = none := by
  have hred : computeBatchTtl pull_numbers (some states)
      = if states.isEmpty then none
        else if (pull_numbers.filter
            (fun pr => lookupState states pr == some "open")).isEmpty then none
        else some 1 := rfl
  refine ⟨?_, ?_, ?_, rfl⟩
  · rw [hred]
    split_ifs with h1 h2
    · simp only [reduceCtorEq, false_iff, not_and]
      intro hne
      exact absurd (List.isEmpty_iff.mp h1) hne
    · simp only [reduceCtorEq, false_iff, not_and]
      intro _ hex
      obtain ⟨pr, hpr, hopen⟩ := hex
      have hmem : pr ∈ pull_numbers.filter
          (fun pr => lookupState states pr == some "open") :=
        List.mem_filter.mpr ⟨hpr, by simp [hopen]⟩
      rw [List.isEmpty_iff.mp h2] at hmem
      cases hmem
    · simp only [true_iff]
      constructor
      · intro hnil
        exact h1 (by simp [hnil])
      · have hne : pull_numbers.filter
            (fun pr => lookupState states pr == some "open") ≠ [] := by
          intro hnil
          exact h2 (by simp [hnil])
        obtain ⟨x, hx⟩ := List.exists_mem_of_ne_nil _ hne
        obtain ⟨hxp, hxopen⟩ := List.mem_filter.mp hx
        exact ⟨x, hxp, by simpa using hxopen⟩
  · rw [hred]
    split_ifs <;> simp
  · intro hall
    rw [hred]
    split_ifs with h1 h2
    · rfl
    · rfl
    · exfalso
      have hne : pull_numbers.filter
          (fun pr => lookupState states pr == some "open") ≠ [] := by
        intro hnil
        exact h2 (by simp [hnil])
      obtain ⟨x, hx⟩ := List.exists_mem_of_ne_nil _ hne
      obtain ⟨hxp, hxopen⟩ := List.mem_filter.mp hx
      have hopen : lookupState states x = some "open" := by simpa using hxopen
      have hclosed := hall x hxp
      rw [hclosed] at hopen
      simp at hopen

/-- Witness for C3 (amended): batch `[5, 6]` with PR 5 closed and PR 6 open
gets the short TTL when the states are supplied, while the aggregator's own
write of the same batch stores `None`. -/
theorem batch_ttl_amended_witness :
    computeBatchTtl [5, 6] (some [(5, "closed"), (6, "open")]) = some 1
    ∧ aggregatorBatchTtl [5, 6] = none :=
  ⟨(batch_ttl_amended [5, 6] [(5, "closed"), (6, "open")]).1.mpr
      ⟨by decide, 6, by decide, by decide⟩,
    (batch_ttl_amended [5, 6] [(5, "closed"), (6, "open")]).2.2.2⟩

/-! ### Cache-key derivation (C7)

`str(n)` for a natural number is `Nat.repr`; the facts needed about it
(digit characters only, non-empty, injective) are proved from the core
definition `Nat.toDigitsCore`. -/

/-- A decimal digit character for `k < 10`. -/
theorem digitChar_isDigit (k : Nat) (h : k < 10) :
    (Nat.digitChar k).isDigit = true := by
  interval_cases k <;> decide

/-- Decoding a digit character gives back its value, for `k < 10`. -/
theorem digitChar_val (k : Nat) (h : k < 10) :
    (Nat.digitChar k).toNat - 48 = k := by
  interval_cases k <;> decide

/-- The accumulator of `Nat.toDigitsCore` is a plain suffix. -/
theorem toDigitsCore_append :
    ∀ (f n : Nat) (ds : List Char),
      Nat.toDigitsCore 10 f n ds = Nat.toDigitsCore 10 f n [] ++ ds := by
  intro f
  induction f with
  | zero => intro n ds; rfl
  | succ f ih =>
    intro n ds
    by_cases h : n / 10 = 0
    · simp [Nat.toDigitsCore, h]
    · simp only [Nat.toDigitsCore, h, if_false]
      rw [ih (n / 10) (Nat.digitChar (n % 10) :: ds),
        ih (n / 10) [Nat.digitChar (n % 10)], List.append_assoc]
      rfl

/-- Every character `Nat.toDigitsCore` emits is a decimal digit. -/
theorem toDigitsCore_digits :
    ∀ (f n : Nat) (c : Char),
      c ∈ Nat.toDigitsCore 10 f n [] → c.isDigit = true := by
  intro f
  induction f with
  | zero => intro n c hc; cases hc
  | succ f ih =>
    intro n c hc
    by_cases h : n / 10 = 0
    · simp only [Nat.toDigitsCore, h, if_true, List.mem_singleton] at hc
      rw [hc]
      exact digitChar_isDigit _ (Nat.mod_lt n (by norm_num))
    · simp only [Nat.toDigitsCore, h, if_false] at hc
      rw [toDigitsCore_append f (n / 10) [Nat.digitChar (n % 10)]] at hc
      rcases List.mem_append.mp hc with hc' | hc'
      · exact ih (n / 10) c hc'
      · rw [List.mem_singleton.mp hc']
        exact digitChar_isDigit _ (Nat.mod_lt n (by norm_num))

/-- `Nat.toDigitsCore` never returns the empty list (with positive fuel). -/
theorem toDigitsCore_ne_nil (f n : Nat) (hf : 0 < f) :
    Nat.toDigitsCore 10 f n [] ≠ [] := by
  cases f with
  | zero => exact absurd hf (by omega)
  | succ f =>
    by_cases h : n / 10 = 0
    · simp [Nat.toDigitsCore, h]
    · simp only [Nat.toDigitsCore, h, if_false]
      rw [toDigitsCore_append f (n / 10) [Nat.digitChar (n % 10)]]
      simp

/-- Decoding the digits of `n` gives back `n` (with adequate fuel). -/
theorem toDigitsCore_val :
    ∀ (f n : Nat), n < f → digitsVal (Nat.toDigitsCore 10 f n []) = n := by
  intro f
  induction f with
  | zero => intro n h; exact absurd h (by omega)
  | succ f ih =>
    intro n h
    by_cases hdiv : n / 10 = 0
    · have hlt : n < 10 := by
        rcases Nat.div_eq_zero_iff (by norm_num : 0 < 10) |>.mp hdiv with h'
        exact h'
      simp only [Nat.toDigitsCore, hdiv, if_true]
      show digitsVal [Nat.digitChar (n % 10)] = n
      simp only [digitsVal, List.foldl_cons, List.foldl_nil, Nat.mul_zero,
        Nat.zero_add]
      rw [digitChar_val _ (Nat.mod_lt n (by norm_num)),
        Nat.mod_eq_of_lt hlt]
    · have hpos : 0 < n := by
        rcases Nat.eq_zero_or_pos n with h0 | h0
        · rw [h0] at hdiv; simp at hdiv
        · exact h0
      have hrec : n / 10 < f := by
        have h1 : n / 10 < n := Nat.div_lt_self hpos (by norm_num)
        omega
      simp only [Nat.toDigitsCore, hdiv, if_false]
      rw [toDigitsCore_append f (n / 10) [Nat.digitChar (n % 10)]]
      show digitsVal (Nat.toDigitsCore 10 f (n / 10) []
        ++ [Nat.digitChar (n % 10)]) = n
      rw [digitsVal, List.foldl_append]
      show 10 * digitsVal (Nat.toDigitsCore 10 f (n / 10) [])
          + ((Nat.digitChar (n % 10)).toNat - 48) = n
      rw [ih (n / 10) hrec, digitChar_val _ (Nat.mod_lt n (by norm_num))]
      exact Nat.div_add_mod n 10

/-- `str(n)` is injective. -/
theorem natRepr_injective : Function.Injective Nat.repr := by
  intro m n h
  have hd : Nat.toDigitsCore 10 (m + 1) m [] = Nat.toDigitsCore 10 (n + 1) n [] :=
    congrArg String.data h
  have hm := toDigitsCore_val (m + 1) m (by omega)
  have hn := toDigitsCore_val (n + 1) n (by omega)
  rw [hd, hn] at hm
  exact hm.symm

/-- Every character of `str(n)` is a decimal digit. -/
theorem natRepr_digits (n : Nat) :
    ∀ c ∈ (Nat.repr n).data, c.isDigit = true := by
  intro c hc
  exact toDigitsCore_digits (n + 1) n c hc

/-- `str(n)` is never empty. -/
theorem natRepr_ne_nil (n : Nat) : (Nat.repr n).data ≠ [] :=
  toDigitsCore_ne_nil (n + 1) n (by omega)

/-- String equality from character-list equality. -/
theorem string_eq_of_data {s t : String} (h : s.data = t.data) : s = t := by
  cases s
  cases t
  exact congrArg String.mk (by simpa using h)

/-- `joinComma` of a non-empty token list with non-empty head is
non-empty. -/
theorem joinComma_ne_nil (s : String) (rest : List String)
    (hs : s.data ≠ []) : (joinComma (s :: rest)).data ≠ [] := by
  cases rest with
  | nil => exact hs
  | cons x xs =>
    show (s ++ "," ++ joinComma (x :: xs)).data ≠ []
    show s.data ++ [','] ++ (joinComma (x :: xs)).data ≠ []
    simp [hs]

/-- Every character of a comma-join of digit tokens is a digit or a
comma. -/
theorem joinComma_chars :
    ∀ (ts : List String),
      (∀ s ∈ ts, ∀ c ∈ s.data, c.isDigit = true) →
      ∀ c ∈ (joinComma ts).data, c.isDigit = true ∨ c = ',' := by
  intro ts
  induction ts with
  | nil => intro _ c hc; cases hc
  | cons s rest ih =>
    intro hdig c hc
    cases rest with
    | nil =>
      exact Or.inl (hdig s (List.mem_cons_self s []) c hc)
    | cons x xs =>
      have hc' : c ∈ s.data ++ [','] ++ (joinComma (x :: xs)).data := hc
      rcases List.mem_append.mp hc' with hc'' | hc''
      · rcases List.mem_append.mp hc'' with hc3 | hc3
        · exact Or.inl (hdig s (List.mem_cons_self s _) c hc3)
        · exact Or.inr (List.mem_singleton.mp hc3)
      · exact ih (fun t ht => hdig t (List.mem_cons_of_mem s ht)) c hc''

/-- Splitting at a separator absent from both prefixes is unambiguous. -/
theorem append_sep_inj (sep : Char) :
    ∀ (a b u v : List Char), sep ∉ a → sep ∉ b →
      a ++ sep :: u = b ++ sep :: v → a = b ∧ u = v := by
  intro a
  induction a with
  | nil =>
    intro b u v _ hb h
    cases b with
    | nil =>
      refine ⟨rfl, ?_⟩
      simpa using h
    | cons y ys =>
      exfalso
      have hy : sep = y := by simpa using congrArg (fun l => l.head?) h
      exact hb (hy ▸ List.mem_cons_self y ys)
  | cons x xs ih =>
    intro b u v ha hb h
    cases b with
    | nil =>
      exfalso
      have hx : x = sep := by simpa using congrArg (fun l => l.head?) h
      exact ha (hx ▸ List.mem_cons_self x xs)
    | cons y ys =>
      have hx : x = y := by simpa using congrArg (fun l => l.head?) h
      have htl : xs ++ sep :: u = ys ++ sep :: v := by
        simpa using congrArg List.tail h
      have hrec := ih ys u v (fun hm => ha (List.mem_cons_of_mem x hm))
        (fun hm => hb (List.mem_cons_of_mem y hm)) htl
      exact ⟨by rw [hx, hrec.1], hrec.2⟩

/-- `",".join` is injective on non-empty all-digit tokens. -/
theorem joinComma_inj :
    ∀ (t1 t2 : List String),
      (∀ s ∈ t1, s.data ≠ [] ∧ ∀ c ∈ s.data, c.isDigit = true) →
      (∀ s ∈ t2, s.data ≠ [] ∧ ∀ c ∈ s.data, c.isDigit = true) →
      joinComma t1 = joinComma t2 → t1 = t2 := by
  intro t1
  induction t1 with
  | nil =>
    intro t2 _ h2 h
    cases t2 with
    | nil => rfl
    | cons s rest =>
      exfalso
      exact joinComma_ne_nil s rest (h2 s (List.mem_cons_self s rest)).1
        (congrArg String.data h).symm
  | cons s1 rest1 ih =>
    intro t2 h1 h2 h
    cases t2 with
    | nil =>
      exfalso
      exact joinComma_ne_nil s1 rest1 (h1 s1 (List.mem_cons_self s1 rest1)).1
        (congrArg String.data h)
    | cons s2 rest2 =>
      have hs1 := h1 s1 (List.mem_cons_self s1 rest1)
      have hs2 := h2 s2 (List.mem_cons_self s2 rest2)
      have hnc1 : ',' ∉ s1.data := fun hm => by
        have := hs1.2 ',' hm
        simp at this
      have hnc2 : ',' ∉ s2.data := fun hm => by
        have := hs2.2 ',' hm
        simp at this
      cases rest1 with
      | nil =>
        cases rest2 with
        | nil =>
          rw [show joinComma [s1] = s1 from rfl,
            show joinComma [s2] = s2 from rfl] at h
          rw [h]
        | cons x2 xs2 =>
          exfalso
          have hd : s1.data = s2.data ++ [','] ++ (joinComma (x2 :: xs2)).data :=
            congrArg String.data h
          have hcm : ',' ∈ s1.data := by
            rw [hd]
            simp
          have := hs1.2 ',' hcm
          simp at this
      | cons x1 xs1 =>
        cases rest2 with
        | nil =>
          exfalso
          have hd : s2.data = s1.data ++ [','] ++ (joinComma (x1 :: xs1)).data :=
            (congrArg String.data h).symm
          have hcm : ',' ∈ s2.data := by
            rw [hd]
            simp
          have := hs2.2 ',' hcm
          simp at this
        | cons x2 xs2 =>
          have hd : s1.data ++ ',' :: (joinComma (x1 :: xs1)).data
              = s2.data ++ ',' :: (joinComma (x2 :: xs2)).data := by
            have h' : s1 ++ "," ++ joinComma (x1 :: xs1)
                = s2 ++ "," ++ joinComma (x2 :: xs2) := h
            simpa [List.append_assoc] using congrArg String.data h'
          obtain ⟨hse, hje⟩ := append_sep_inj ',' _ _ _ _ hnc1 hnc2 hd
          have hs12 : s1 = s2 := string_eq_of_data hse
          have hrest : (x1 :: xs1) = (x2 :: xs2) :=
            ih (x2 :: xs2)
              (fun t ht => h1 t (List.mem_cons_of_mem s1 ht))
              (fun t ht => h2 t (List.mem_cons_of_mem s2 ht))
              (string_eq_of_data hje)
          rw [hs12, hrest]

/-- Character list of a string concatenation. -/
theorem string_data_append (s t : String) : (s ++ t).data = s.data ++ t.data :=
  rfl

/-- Canonical character-list form of a short-style key. -/
theorem key_data_form (o r tail : String) :
    ("pr_reviews:" ++ o ++ ":" ++ r ++ ":" ++ tail).data
      = "pr_reviews:".data ++ (o.data ++ ':' :: (r.data ++ ':' :: tail.data)) := by
  simp only [string_data_append, List.append_assoc]
  rfl

/-- Canonical character-list form of a hashed key. -/
theorem key_data_form_hash (o r h : String) :
    ("pr_reviews:" ++ o ++ ":" ++ r ++ ":hash_" ++ h).data
      = "pr_reviews:".data
          ++ (o.data ++ ':' :: (r.data ++ ':' :: ("hash_".data ++ h.data))) := by
  simp only [string_data_append, List.append_assoc]
  rfl

/-- With colon-free owner and repo, the three key fields parse uniquely. -/
theorem key_fields_inj (o1 r1 o2 r2 : String) (t1 t2 : List Char)
    (ho1 : ':' ∉ o1.data) (hr1 : ':' ∉ r1.data)
    (ho2 : ':' ∉ o2.data) (hr2 : ':' ∉ r2.data)
    (h : "pr_reviews:".data ++ (o1.data ++ ':' :: (r1.data ++ ':' :: t1))
       = "pr_reviews:".data ++ (o2.data ++ ':' :: (r2.data ++ ':' :: t2))) :
    o1 = o2 ∧ r1 = r2 ∧ t1 = t2 := by
  have h' := List.append_cancel_left h
  obtain ⟨ho, hrest⟩ := append_sep_inj ':' _ _ _ _ ho1 ho2 h'
  obtain ⟨hr, ht⟩ := append_sep_inj ':' _ _ _ _ hr1 hr2 hrest
  exact ⟨string_eq_of_data ho, string_eq_of_data hr, ht⟩

/-- Every token of the sorted PR-number join is a non-empty digit string. -/
theorem prListString_tokens (l : List Nat) :
    ∀ s ∈ (l.insertionSort (· ≤ ·)).map Nat.repr,
      s.data ≠ [] ∧ ∀ c ∈ s.data, c.isDigit = true := by
  intro s hs
  obtain ⟨n, _, rfl⟩ := List.mem_map.mp hs
  exact ⟨natRepr_ne_nil n, natRepr_digits n⟩

/-- Every character of the sorted PR-number join is a digit or a comma. -/
theorem prListString_chars (l : List Nat) :
    ∀ c ∈ (prListString l).data, c.isDigit = true ∨ c = ',' :=
  joinComma_chars _ (fun s hs => (prListString_tokens l s hs).2)

/-- Equal PR-list strings force equal multisets of pull numbers. -/
theorem prListString_inj (l1 l2 : List Nat)
    (h : prListString l1 = prListString l2) : l1.Perm l2 := by
  have htok := joinComma_inj _ _ (prListString_tokens l1)
    (prListString_tokens l2) h
  have hsort : l1.insertionSort (· ≤ ·) = l2.insertionSort (· ≤ ·) :=
    List.map_injective_iff.mpr natRepr_injective htok
  exact ((List.perm_insertionSort _ l1).symm.trans
    (hsort ▸ List.perm_insertionSort _ l2 : List.Perm (l1.insertionSort (· ≤ ·)) l2))

/-- Permutation-equal PR-number lists produce the same PR-list string. -/
theorem prListString_perm (l l' : List Nat) (h : l.Perm l') :
    prListString l = prListString l' := by
  unfold prListString
  have hsort : l.insertionSort (· ≤ ·) = l'.insertionSort (· ≤ ·) :=
    List.eq_of_perm_of_sorted
      ((List.perm_insertionSort _ l).trans
        (h.trans (List.perm_insertionSort _ l').symm))
      (List.sorted_insertionSort _ l) (List.sorted_insertionSort _ l')
  rw [hsort]

/-- **C7 (amended).** `generate_pr_reviews_cache_key` is a function of
`(owner, repo, multiset of pull numbers)` — deterministic and invariant
under permutation of the pull-number list; for colon-free `owner`/`repo`
(GitHub names never contain `:`), two inputs can only collide when they are
the same `(owner, repo, multiset)` or when the 16-hex-character truncated
digest collides on two different base keys; and every base key longer than
200 characters is replaced by
`pr_reviews:<owner>:<repo>:hash_<digest of the full untruncated base key>`.
(The colon-free proviso is forced by the counterexample; the claim's
"negligible probability" becomes the explicit hash-collision disjunct.) -/
theorem cache_key_amended (hash16 : String → String) (o1 r1 o2 r2 : String)
    (l1 l2 : List Nat)
    (ho1 : ':' ∉ o1.data) (hr1 : ':' ∉ r1.data)
    (ho2 : ':' ∉ o2.data) (hr2 : ':' ∉ r2.data) :
    (∀ l l', l.Perm l' →
      generate_pr_reviews_cache_key hash16 o1 r1 l
        = generate_pr_reviews_cache_key hash16 o1 r1 l')
    ∧ (generate_pr_reviews_cache_key hash16 o1 r1 l1
        = generate_pr_reviews_cache_key hash16 o2 r2 l2 →
      (o1 = o2 ∧ r1 = r2 ∧ l1.Perm l2)
      ∨ ∃ b1 b2, b1 ≠ b2 ∧ hash16 b1 = hash16 b2)
    ∧ (MAX_KEY_LENGTH < (basePrReviewsKey o1 r1 l1).length →
      generate_pr_reviews_cache_key hash16 o1 r1 l1
        = "pr_reviews:" ++ o1 ++ ":" ++ r1 ++ ":hash_"
            ++ hash16 (basePrReviewsKey o1 r1 l1)) := by
  have hbase_inj : basePrReviewsKey o1 r1 l1 = basePrReviewsKey o2 r2 l2 →
      o1 = o2 ∧ r1 = r2 ∧ l1.Perm l2 := by
    intro hbase
    have hbd := congrArg String.data hbase
    unfold basePrReviewsKey at hbd
    rw [key_data_form, key_data_form] at hbd
    obtain ⟨ho, hr, hpl⟩ := key_fields_inj o1 r1 o2 r2 _ _ ho1 hr1 ho2 hr2 hbd
    exact ⟨ho, hr, prListString_inj l1 l2 (string_eq_of_data hpl)⟩
  have hshort_long_absurd : ∀ (oA rA oB rB : String) (lA lB : List Nat),
      ':' ∉ oA.data → ':' ∉ rA.data → ':' ∉ oB.data → ':' ∉ rB.data →
      "pr_reviews:" ++ oA ++ ":" ++ rA ++ ":hash_"
          ++ hash16 (basePrReviewsKey oA rA lA)
        = basePrReviewsKey oB rB lB → False := by
    intro oA rA oB rB lA lB hoA hrA hoB hrB habs
    have hd := congrArg String.data habs
    rw [key_data_form_hash] at hd
    have hd2 : (basePrReviewsKey oB rB lB).data
        = "pr_reviews:".data
            ++ (oB.data ++ ':' :: (rB.data ++ ':' :: (prListString lB).data)) := by
      unfold basePrReviewsKey
      rw [key_data_form]
    rw [hd2] at hd
    obtain ⟨_, _, ht⟩ := key_fields_inj oA rA oB rB _ _ hoA hrA hoB hrB hd
    have hmem : 'h' ∈ (prListString lB).data := by
      rw [← ht]
      exact List.mem_append_left _ (by decide)
    rcases prListString_chars lB 'h' hmem with hdig | hcomma
    · exact absurd hdig (by decide)
    · exact absurd hcomma (by decide)
  refine ⟨?_, ?_, ?_⟩
  · intro l l' hperm
    unfold generate_pr_reviews_cache_key basePrReviewsKey
    rw [prListString_perm l l' hperm]
  · intro h
    unfold generate_pr_reviews_cache_key at h
    simp only [] at h
    split_ifs at h with hlen1 hlen2
    · -- both keys hashed
      have hd := congrArg String.data h
      rw [key_data_form_hash, key_data_form_hash] at hd
      obtain ⟨ho, hr, ht⟩ := key_fields_inj o1 r1 o2 r2 _ _ ho1 hr1 ho2 hr2 hd
      have hh : hash16 (basePrReviewsKey o1 r1 l1)
          = hash16 (basePrReviewsKey o2 r2 l2) :=
        string_eq_of_data (List.append_cancel_left ht)
      by_cases hbase : basePrReviewsKey o1 r1 l1 = basePrReviewsKey o2 r2 l2
      · exact Or.inl (hbase_inj hbase)
      · exact Or.inr ⟨_, _, hbase, hh⟩
    · exact absurd h (fun habs =>
        hshort_long_absurd o1 r1 o2 r2 l1 l2 ho1 hr1 ho2 hr2 habs)
    · exact absurd h.symm (fun habs =>
        hshort_long_absurd o2 r2 o1 r1 l2 l1 ho2 hr2 ho1 hr1 habs)
    · exact Or.inl (hbase_inj h)
  · intro hlong
    unfold generate_pr_reviews_cache_key
    simp only []
    rw [if_pos hlong]

set_option maxRecDepth 8000 in
/-- Witness for C7 (amended): `[2, 1]` and `[1, 2]` derive the same key, and
a 30-PR batch's over-long base key is replaced by the hashed form. -/
theorem cache_key_amended_witness :
    generate_pr_reviews_cache_key (fun _ => "0123456789abcdef")
        "octo" "repo" [2, 1]
      = generate_pr_reviews_cache_key (fun _ => "0123456789abcdef")
        "octo" "repo" [1, 2]
    ∧ generate_pr_reviews_cache_key (fun _ => "0123456789abcdef")
        "octo" "repo" longBatch
      = "pr_reviews:" ++ "octo" ++ ":" ++ "repo" ++ ":hash_"
          ++ (fun _ => "0123456789abcdef")
            (basePrReviewsKey "octo" "repo" longBatch) :=
  ⟨(cache_key_amended (fun _ => "0123456789abcdef") "octo" "repo" "octo" "repo"
      [2, 1] [1, 2] (by decide) (by decide) (by decide) (by decide)).1
      [2, 1] [1, 2] (by decide),
    (cache_key_amended (fun _ => "0123456789abcdef") "octo" "repo" "octo" "repo"
      longBatch longBatch (by decide) (by decide) (by decide) (by decide)).2.2
      (by decide)⟩

/-- **C7 (counterexample).** Over arbitrary strings the claim's "different
inputs yield different keys barring hash collision" fails without a
colon-free proviso: owner `"a:b"` with repo `"c"` and owner `"a"` with repo
`"b:c"` produce the identical (unhashed) key `pr_reviews:a:b:c:1`. -/
theorem cache_key_counterexample :
    generate_pr_reviews_cache_key (fun _ => "") "a:b" "c" [1]
      = generate_pr_reviews_cache_key (fun _ => "") "a" "b:c" [1]
    ∧ (("a:b", "c") : String × String) ≠ ("a", "b:c") := by
  exact ⟨by decide, by decide⟩

end ReviewTally
